import Mathlib

/-!
Shallow embedding of the SPARE repository (drug-drug-interaction pipeline) and
proofs about it.

Part 1 embeds `src/models/hyperconv.py` (the `HyperConv` message-passing layer).
Tensors of node features are embedded as lists of rows over `ℚ`; the
uninitialised rows of `torch.empty` are embedded as `none` entries, so that a
read of a never-assigned row is visibly undefined.  The third-party pieces the
layer calls into (`torch.nn.Linear`, the `aggr='mean'` scatter of
torch-geometric, `torch.nn.functional.normalize`) are embedded by their
documented semantics; `F.normalize` (which needs a real square root and is
unreachable in the default configuration) is kept as an oracle-function field
of the layer.
-/

namespace SPARE

/-- Row vector addition (`torch` elementwise `+` on equally-shaped rows). -/
def vecAdd (u v : List ℚ) : List ℚ := List.zipWith (fun a b => a + b) u v

/-- Scaling of a row vector by a rational. -/
def vecScale (c : ℚ) (v : List ℚ) : List ℚ := v.map (fun a => c * a)

/-- Dot product of two rows. -/
def dot (u v : List ℚ) : ℚ := (List.zipWith (fun a b => a * b) u v).sum

/-- Embedding of `torch.nn.Linear(in_channels, out_channels, bias=True)`:
a weight matrix (one row per output channel) and a bias vector. -/
structure Linear where
  weight : List (List ℚ)
  bias : List ℚ

/-- Applying a linear layer to one input row: `W x + b`. -/
def Linear.apply (l : Linear) (v : List ℚ) : List ℚ :=
  List.zipWith (fun row b => dot row v + b) l.weight l.bias

/-- The zero-sized linear layer, used as an out-of-range list default. -/
def linZero : Linear := ⟨[], []⟩

/-- Embedding of the `HyperConv` module state built by `HyperConv.__init__`
(`src/models/hyperconv.py`).  `transforms` is the list of `n_type` per-edge-type
linear layers; `weight`/`bias` are the extra parameters used only when
`skip_last_weight` is false.  `normalizeFn` stands for the third-party
`torch.nn.functional.normalize`. -/
structure HyperConv where
  in_channels : Nat
  out_channels : Nat
  normalize : Bool
  concat : Bool
  n_type : Nat
  skip_last_weight : Bool
  transforms : List Linear
  weight : List (List ℚ)
  bias : Option (List ℚ)
  normalizeFn : List (List ℚ) → List (List ℚ)

/-- The default edge-type count of `HyperConv.__init__` (`n_type=5`): types 0-4
are drug-drug, drug-side-effect, side-effect-drug, drug self-loop and
side-effect self-loop. -/
def defaultNType : Nat := 5

/-- The per-edge transformed source feature that `HyperConv.__collect__`
assigns at edge position `e`: the transform of the edge's type applied to the
feature row of the edge's source node `edge_index[0, e]`. -/
def HyperConv.msgAt (hc : HyperConv) (edge_src edge_types : List Nat)
    (x : List (List ℚ)) (e : Nat) : List ℚ :=
  (hc.transforms.getD (edge_types.getD e 0) linZero).apply
    (x.getD (edge_src.getD e 0) [])

/-- One fancy-index assignment `x_out[ids] = vals` of `__collect__`, with
`ids = torch.nonzero(edge_types == i)`: every position `e < m` whose type
matches is overwritten with `f e`. -/
def setWhere (cond : Nat → Bool) (f : Nat → α) (m : Nat) (acc : List α) : List α :=
  (List.range m).foldl (fun a e => if cond e then a.set e (f e) else a) acc

/-- Embedding of `HyperConv.__collect__`: an uninitialised buffer of
`edge_index.size(1)` rows (`torch.empty`, every row `none`), then one
fancy-index assignment per edge type `i < n_type` writing
`transforms[i](x[source_ids[ids]])` into the rows `ids` whose type equals `i`. -/
def HyperConv.collect (hc : HyperConv) (edge_src edge_types : List Nat)
    (x : List (List ℚ)) : List (Option (List ℚ)) :=
  let n_out := edge_src.length
  (List.range hc.n_type).foldl
    (fun x_out i =>
      setWhere (fun e => edge_types.getD e 0 == i)
        (fun e => some ((hc.transforms.getD i linZero).apply
          (x.getD (edge_src.getD e 0) []))) n_out x_out)
    (List.replicate n_out none)

theorem setWhere_length (cond : Nat → Bool) (f : Nat → α) (m : Nat)
    (acc : List α) : (setWhere cond f m acc).length = acc.length := by
  induction m generalizing acc with
  | zero => simp [setWhere]
  | succ m ih =>
    simp only [setWhere, List.range_succ, List.foldl_append, List.foldl_cons,
      List.foldl_nil]
    by_cases h : cond m
    · rw [show ((List.range m).foldl
          (fun a e => if cond e then a.set e (f e) else a) acc) =
          setWhere cond f m acc from rfl]
      simp [h, List.length_set, ih]
    · rw [show ((List.range m).foldl
          (fun a e => if cond e then a.set e (f e) else a) acc) =
          setWhere cond f m acc from rfl]
      simp [h, ih]

theorem setWhere_getElem? (cond : Nat → Bool) (f : Nat → α) (m : Nat)
    (acc : List α) (e : Nat) (he : e < acc.length) :
    (setWhere cond f m acc)[e]? =
      if e < m ∧ cond e then some (f e) else acc[e]? := by
  induction m generalizing acc with
  | zero => simp [setWhere]
  | succ m ih =>
    have hstep : setWhere cond f (m + 1) acc =
        if cond m then (setWhere cond f m acc).set m (f m)
        else setWhere cond f m acc := by
      simp [setWhere, List.range_succ, List.foldl_append]
    rw [hstep]
    by_cases hc : cond m
    · rw [if_pos hc]
      rw [List.getElem?_set]
      by_cases hem : m = e
      · subst hem
        have hlt : m < (setWhere cond f m acc).length := by
          rw [setWhere_length]; exact he
        simp [hlt, hc, Nat.lt_succ_self]
      · simp only [hem, if_false]
        rw [ih acc he]
        by_cases hlt : e < m
        · simp [hlt, Nat.lt_succ_of_lt hlt]
        · have : ¬ e < m + 1 := by omega
          simp [hlt, this]
    · rw [if_neg hc]
      rw [ih acc he]
      by_cases hlt : e < m
      · simp [hlt, Nat.lt_succ_of_lt hlt]
      · by_cases hem : e = m
        · subst hem
          simp [hlt, hc]
        · have : ¬ e < m + 1 := by omega
          simp [hlt, this]

/-- The outer loop of `__collect__` truncated to the first `m` edge types. -/
def HyperConv.collectUpTo (hc : HyperConv) (edge_src edge_types : List Nat)
    (x : List (List ℚ)) (m : Nat) : List (Option (List ℚ)) :=
  let n_out := edge_src.length
  (List.range m).foldl
    (fun x_out i =>
      setWhere (fun e => edge_types.getD e 0 == i)
        (fun e => some ((hc.transforms.getD i linZero).apply
          (x.getD (edge_src.getD e 0) []))) n_out x_out)
    (List.replicate n_out none)

theorem collectUpTo_length (hc : HyperConv) (edge_src edge_types : List Nat)
    (x : List (List ℚ)) (m : Nat) :
    (hc.collectUpTo edge_src edge_types x m).length = edge_src.length := by
  induction m with
  | zero => simp [HyperConv.collectUpTo]
  | succ m ih =>
    simp only [HyperConv.collectUpTo, List.range_succ, List.foldl_append,
      List.foldl_cons, List.foldl_nil]
    rw [show ((List.range m).foldl _ _ : List (Option (List ℚ))) =
      hc.collectUpTo edge_src edge_types x m from rfl]
    rw [setWhere_length]
    exact ih

theorem collectUpTo_getElem? (hc : HyperConv) (edge_src edge_types : List Nat)
    (x : List (List ℚ)) (m : Nat) (e : Nat) (he : e < edge_src.length) :
    (hc.collectUpTo edge_src edge_types x m)[e]? =
      if edge_types.getD e 0 < m
      then some (some (hc.msgAt edge_src edge_types x e))
      else some none := by
  induction m with
  | zero =>
    simp [HyperConv.collectUpTo, List.getElem?_replicate, he]
  | succ m ih =>
    have hstep : hc.collectUpTo edge_src edge_types x (m + 1) =
        setWhere (fun e => edge_types.getD e 0 == m)
          (fun e => some ((hc.transforms.getD m linZero).apply
            (x.getD (edge_src.getD e 0) []))) edge_src.length
          (hc.collectUpTo edge_src edge_types x m) := by
      simp [HyperConv.collectUpTo, List.range_succ, List.foldl_append]
    rw [hstep]
    rw [setWhere_getElem? _ _ _ _ e (by rw [collectUpTo_length]; exact he)]
    by_cases ht : edge_types.getD e 0 = m
    · rw [if_pos ⟨he, by simp only [ht, beq_self_eq_true]⟩, if_pos (by omega)]
      simp only [HyperConv.msgAt, ht]
    · have hne : (edge_types.getD e 0 == m) = false := by
        simp only [beq_eq_false_iff_ne, ne_eq]
        exact ht
      rw [if_neg (fun h => Bool.false_ne_true (hne ▸ h.2)), ih]
      by_cases hlt : edge_types.getD e 0 < m
      · rw [if_pos hlt, if_pos (by omega)]
      · rw [if_neg hlt, if_neg (by omega)]

theorem collect_eq_collectUpTo (hc : HyperConv) (edge_src edge_types : List Nat)
    (x : List (List ℚ)) :
    hc.collect edge_src edge_types x =
      hc.collectUpTo edge_src edge_types x hc.n_type := rfl

/-- Reading a whole list of possibly-uninitialised rows: defined exactly when
every row was assigned.  Models that `forward`'s result is only well defined
when `__collect__` initialised every row of its `torch.empty` buffer. -/
def seqOpts : List (Option α) → Option (List α)
  | [] => some []
  | none :: _ => none
  | some a :: rest => (seqOpts rest).map (fun l => a :: l)

theorem seqOpts_map_some (l : List α) : seqOpts (l.map some) = some l := by
  induction l with
  | nil => rfl
  | cons a t ih => simp [seqOpts, ih]

/-- Embedding of `HyperConv.message`: the identity on the per-edge features. -/
def HyperConv.message (_hc : HyperConv) (x_j : List (List ℚ)) : List (List ℚ) := x_j

/-- Column `j` of a weight matrix. -/
def matCol (w : List (List ℚ)) (j : Nat) : List ℚ := w.map (fun row => row.getD j 0)

/-- `torch.matmul(aggr_out, weight)` for a stack of rows times an
`in x out` matrix. -/
def matmulRows (a w : List (List ℚ)) : List (List ℚ) :=
  a.map (fun vrow => (List.range (w.getD 0 []).length).map (fun j => dot vrow (matCol w j)))

/-- Embedding of `HyperConv.update`: with `skip_last_weight` the aggregate is
returned unchanged; otherwise optional concatenation with the input, the final
linear map `weight`, the optional `bias`, and the third-party `F.normalize`. -/
def HyperConv.update (hc : HyperConv) (aggr_out x : List (List ℚ)) : List (List ℚ) :=
  if hc.skip_last_weight then aggr_out
  else
    let a1 := if hc.concat then List.zipWith (fun xi ai => xi ++ ai) x aggr_out
      else aggr_out
    let a2 := matmulRows a1 hc.weight
    let a3 := match hc.bias with
      | some b => a2.map (fun vrow => vecAdd vrow b)
      | none => a2
    if hc.normalize then hc.normalizeFn a3 else a3

/-- Semantics of the torch-geometric scatter with `reduce='mean'`: output row
`v` is the mean of the message rows whose index entry equals `v` (zero when
there is none). -/
def scatter_mean (msgs : List (List ℚ)) (index : List Nat) (dim_size c : Nat) :
    List (List ℚ) :=
  (List.range dim_size).map (fun v =>
    let ids := (List.range index.length).filter (fun e => index.getD e 0 == v)
    if ids.length = 0 then List.replicate c 0
    else vecScale (1 / (ids.length : ℚ))
      ((ids.map (fun e => msgs.getD e [])).foldl vecAdd (List.replicate c 0)))

/-- Embedding of the `aggr='mean'` aggregation selected in
`HyperConv.__init__`: scatter-mean by the index, with the output size inferred
from the largest index (`dim_size=None`). -/
def HyperConv.aggregate (hc : HyperConv) (out : List (List ℚ)) (index : List Nat) :
    List (List ℚ) :=
  scatter_mean out index (index.foldl max 0 + 1) hc.out_channels

/-- Embedding of the overridden `HyperConv.propagate`: collect the per-edge
transformed features, pass them through `message`, aggregate them by the
destination index `edge_index[1, :]`, and apply `update`.  The result is
undefined (`none`) when `__collect__` left a row unassigned. -/
def HyperConv.propagate (hc : HyperConv) (edge_src edge_dst edge_types : List Nat)
    (x : List (List ℚ)) : Option (List (List ℚ)) :=
  match seqOpts (hc.collect edge_src edge_types x) with
  | none => none
  | some x_out =>
    let out := hc.message x_out
    let out := hc.aggregate out edge_dst
    some (hc.update out x)

/-- Embedding of `HyperConv.forward`, which just calls `propagate`. -/
def HyperConv.forward (hc : HyperConv) (edge_src edge_dst edge_types : List Nat)
    (x : List (List ℚ)) : Option (List (List ℚ)) :=
  hc.propagate edge_src edge_dst edge_types x

theorem collect_all_assigned (hc : HyperConv) (edge_src edge_types : List Nat)
    (x : List (List ℚ))
    (htypes : ∀ e, e < edge_src.length → edge_types.getD e 0 < hc.n_type) :
    hc.collect edge_src edge_types x =
      ((List.range edge_src.length).map
        (fun e => hc.msgAt edge_src edge_types x e)).map some := by
  apply List.ext_getElem?
  intro e
  by_cases he : e < edge_src.length
  · rw [collect_eq_collectUpTo, collectUpTo_getElem? _ _ _ _ _ _ he,
      if_pos (htypes e he)]
    rw [List.getElem?_map, List.getElem?_map, List.getElem?_range he]
    rfl
  · have h1 : (hc.collect edge_src edge_types x)[e]? = none := by
      apply List.getElem?_eq_none
      rw [collect_eq_collectUpTo, collectUpTo_length]
      omega
    have h2 : (((List.range edge_src.length).map
        (fun e => hc.msgAt edge_src edge_types x e)).map some)[e]? = none := by
      apply List.getElem?_eq_none
      simp only [List.length_map, List.length_range]
      omega
    rw [h1, h2]

theorem foldl_max_init_le (l : List Nat) (m : Nat) : m ≤ l.foldl max m := by
  induction l generalizing m with
  | nil => simp
  | cons b t ih => exact le_trans (Nat.le_max_left m b) (ih (max m b))

theorem le_foldl_max_of_mem (l : List Nat) (a m : Nat) (ha : a ∈ l) :
    a ≤ l.foldl max m := by
  induction l generalizing m with
  | nil => cases ha
  | cons b t ih =>
    rcases List.mem_cons.mp ha with h | h
    · subst h
      exact le_trans (Nat.le_max_right m a) (foldl_max_init_le t (max m a))
    · exact ih (max m b) h

/-- C1: in `HyperConv.forward` (with the `n_type = 5` relation types of the
default construction and every edge type in range), the per-edge message list
produced from `__collect__` and fed to `message` has, at each edge position
`e`, exactly `transforms[edge_types[e]]` applied to the feature row of the
source node `edge_index[0, e]`; `message` leaves it unchanged. -/
theorem hyperconv_forward_per_type_message (hc : HyperConv)
    (edge_src edge_types : List Nat) (x : List (List ℚ)) (e : Nat)
    (_hn5 : hc.n_type = defaultNType)
    (htypes : ∀ i, i < edge_src.length → edge_types.getD i 0 < hc.n_type)
    (he : e < edge_src.length) :
    ∃ msgs, seqOpts (hc.collect edge_src edge_types x) = some msgs ∧
      hc.message msgs = msgs ∧
      msgs[e]? = some ((hc.transforms.getD (edge_types.getD e 0) linZero).apply
        (x.getD (edge_src.getD e 0) [])) := by
  refine ⟨(List.range edge_src.length).map
    (fun i => hc.msgAt edge_src edge_types x i), ?_, rfl, ?_⟩
  · rw [collect_all_assigned hc edge_src edge_types x htypes, seqOpts_map_some]
  · rw [List.getElem?_map, List.getElem?_range he]
    rfl

/-- Concrete instance for C1. -/
def hcW : HyperConv :=
  { in_channels := 1, out_channels := 1, normalize := false, concat := false,
    n_type := 5, skip_last_weight := true,
    transforms := [⟨[[1]], [0]⟩, ⟨[[2]], [0]⟩, ⟨[[3]], [0]⟩, ⟨[[4]], [0]⟩, ⟨[[5]], [0]⟩],
    weight := [[1]], bias := some [0], normalizeFn := fun a => a }

/-- Witness for C1 at a concrete layer, edge list and feature matrix. -/
theorem hyperconv_forward_per_type_message_instance :
    ∃ msgs, seqOpts (hcW.collect [0, 1] [1, 0] [[1], [2]]) = some msgs ∧
      hcW.message msgs = msgs ∧
      msgs[0]? = some ((hcW.transforms.getD ([1, 0].getD 0 0) linZero).apply
        ([[1], [2]].getD ([0, 1].getD 0 0) [])) :=
  hyperconv_forward_per_type_message hcW [0, 1] [1, 0] [[1], [2]] 0 rfl
    (by decide) (by decide)

/-- C3: for an edge position `e` of `__collect__`, the row of the `torch.empty`
output is assigned (by exactly the transform of the edge's own type) precisely
when `edge_types[e] < n_type`; an out-of-range edge type leaves the row
unassigned (`none`), so the layer output is well defined only under the
precondition that all edge types lie in `[0, n_type)`. -/
theorem hyperconv_collect_partition_safety (hc : HyperConv)
    (edge_src edge_types : List Nat) (x : List (List ℚ)) (e : Nat)
    (he : e < edge_src.length) :
    (edge_types.getD e 0 < hc.n_type →
      (hc.collect edge_src edge_types x)[e]? =
        some (some ((hc.transforms.getD (edge_types.getD e 0) linZero).apply
          (x.getD (edge_src.getD e 0) [])))) ∧
    (hc.n_type ≤ edge_types.getD e 0 →
      (hc.collect edge_src edge_types x)[e]? = some none) := by
  constructor
  · intro ht
    rw [collect_eq_collectUpTo, collectUpTo_getElem? _ _ _ _ _ _ he, if_pos ht]
    rfl
  · intro ht
    rw [collect_eq_collectUpTo, collectUpTo_getElem? _ _ _ _ _ _ he,
      if_neg (by omega)]

/-- Witness for C3 at a concrete layer: an in-range type (position 0) is
assigned, an out-of-range type 7 (position 1) stays unassigned. -/
theorem hyperconv_collect_partition_safety_instance :
    (([0, 7].getD 0 0 < hcW.n_type →
      (hcW.collect [0, 1] [0, 7] [[1], [2]])[0]? =
        some (some ((hcW.transforms.getD ([0, 7].getD 0 0) linZero).apply
          ([[1], [2]].getD ([0, 1].getD 0 0) [])))) ∧
    (hcW.n_type ≤ [0, 7].getD 0 0 →
      (hcW.collect [0, 1] [0, 7] [[1], [2]])[0]? = some none)) ∧
    (([0, 7].getD 1 0 < hcW.n_type →
      (hcW.collect [0, 1] [0, 7] [[1], [2]])[1]? =
        some (some ((hcW.transforms.getD ([0, 7].getD 1 0) linZero).apply
          ([[1], [2]].getD ([0, 1].getD 1 0) [])))) ∧
    (hcW.n_type ≤ [0, 7].getD 1 0 →
      (hcW.collect [0, 1] [0, 7] [[1], [2]])[1]? = some none)) :=
  ⟨hyperconv_collect_partition_safety hcW [0, 1] [0, 7] [[1], [2]] 0 (by decide),
   hyperconv_collect_partition_safety hcW [0, 1] [0, 7] [[1], [2]] 1 (by decide)⟩

/-- C2: with `skip_last_weight = true` (the default construction), the row of
the `forward` output at any node `v` that receives at least one edge is the
mean, over exactly the edge positions whose destination `edge_index[1, e]`
equals `v`, of the per-type-transformed source-node features. -/
theorem hyperconv_forward_mean_aggregation (hc : HyperConv)
    (edge_src edge_dst edge_types : List Nat) (x : List (List ℚ)) (v : Nat)
    (hskip : hc.skip_last_weight = true)
    (hlen : edge_dst.length = edge_src.length)
    (htypes : ∀ i, i < edge_src.length → edge_types.getD i 0 < hc.n_type)
    (hv : v ∈ edge_dst) :
    ∃ out, hc.forward edge_src edge_dst edge_types x = some out ∧
      out[v]? = some (vecScale
        (1 / ((((List.range edge_src.length).filter
            (fun e => edge_dst.getD e 0 == v)).length : ℚ)))
        ((((List.range edge_src.length).filter
            (fun e => edge_dst.getD e 0 == v)).map
          (fun e => (hc.transforms.getD (edge_types.getD e 0) linZero).apply
            (x.getD (edge_src.getD e 0) []))).foldl vecAdd
          (List.replicate hc.out_channels 0))) := by
  have hmsgs : seqOpts (hc.collect edge_src edge_types x) =
      some ((List.range edge_src.length).map
        (fun i => hc.msgAt edge_src edge_types x i)) := by
    rw [collect_all_assigned hc edge_src edge_types x htypes, seqOpts_map_some]
  set msgs := (List.range edge_src.length).map
    (fun i => hc.msgAt edge_src edge_types x i) with hmsgs_def
  refine ⟨hc.aggregate (hc.message msgs) edge_dst, ?_, ?_⟩
  · rw [HyperConv.forward, HyperConv.propagate, hmsgs]
    simp only [HyperConv.update, hskip, if_pos]
  · have hvlt : v < edge_dst.foldl max 0 + 1 :=
      Nat.lt_succ_of_le (le_foldl_max_of_mem edge_dst v 0 hv)
    rw [HyperConv.message, HyperConv.aggregate, scatter_mean]
    rw [List.getElem?_map, List.getElem?_range hvlt, Option.map_some']
    congr 1
    rw [hlen]
    set ids := (List.range edge_src.length).filter
      (fun e => edge_dst.getD e 0 == v) with hids_def
    have hidsne : ids.length ≠ 0 := by
      obtain ⟨j, hj, hjv⟩ := List.getElem_of_mem hv
      have hjmem : j ∈ ids := by
        rw [hids_def]
        refine List.mem_filter.mpr ⟨List.mem_range.mpr (by omega), ?_⟩
        have : edge_dst.getD j 0 = v := by
          rw [List.getD_eq_getElem?_getD, List.getElem?_eq_getElem hj, hjv]
          rfl
        simp only [beq_iff_eq]
        exact this
      intro hzero
      rw [List.length_eq_zero] at hzero
      rw [hzero] at hjmem
      cases hjmem
    rw [if_neg hidsne]
    have hmapeq : List.map (fun e => msgs.getD e []) ids =
        List.map (fun e => (hc.transforms.getD (edge_types.getD e 0) linZero).apply
          (x.getD (edge_src.getD e 0) [])) ids := by
      apply List.map_congr_left
      intro e hemem
      have helt : e < edge_src.length := by
        rw [hids_def] at hemem
        exact List.mem_range.mp (List.mem_filter.mp hemem).1
      rw [hmsgs_def, List.getD_eq_getElem?_getD, List.getElem?_map,
        List.getElem?_range helt]
      rfl
    rw [hmapeq]

/-- Witness for C2 at a concrete layer: node 1 receives both edges, so its
output row is the mean of the two transformed source features. -/
theorem hyperconv_forward_mean_aggregation_instance :
    ∃ out, hcW.forward [0, 1] [1, 1] [0, 1] [[1], [2]] = some out ∧
      out[1]? = some (vecScale
        (1 / ((((List.range ([0, 1] : List Nat).length).filter
            (fun e => ([1, 1] : List Nat).getD e 0 == 1)).length : ℚ)))
        ((((List.range ([0, 1] : List Nat).length).filter
            (fun e => ([1, 1] : List Nat).getD e 0 == 1)).map
          (fun e => (hcW.transforms.getD (([0, 1] : List Nat).getD e 0) linZero).apply
            (([[1], [2]] : List (List ℚ)).getD (([0, 1] : List Nat).getD e 0) []))).foldl
          vecAdd (List.replicate hcW.out_channels 0))) :=
  hyperconv_forward_mean_aggregation hcW [0, 1] [1, 1] [0, 1] [[1], [2]] 1 rfl
    (by decide) (by decide) (by decide)

/-!
Part 2 embeds `src/postProcessing/drugsComMatching.py`.  Python strings are
embedded as `List Char`; the Python string operations the script uses
(`strip`, `lower`, `split`, `startswith`, `index`, slicing, `in`, comparison)
are given exact counterparts.  Third-party calls (the browser, `json.loads`,
BeautifulSoup lookups, `getTextURL`) are oracle function parameters; their
failure (`none`) stands for a raised exception at that call site. -/

/-- Python `str.strip()` (both-ends whitespace strip). -/
def pyStrip (s : List Char) : List Char :=
  ((s.dropWhile Char.isWhitespace).reverse.dropWhile Char.isWhitespace).reverse

/-- Python `str.lower()`. -/
def pyLower (s : List Char) : List Char := s.map Char.toLower

/-- Python `str.split(sep)` for a one-character separator: keeps empty pieces,
and splitting the empty string yields one empty piece. -/
def pySplit (c : Char) : List Char → List (List Char)
  | [] => [[]]
  | a :: rest =>
    match pySplit c rest with
    | [] => [[]]
    | h :: t => if a = c then [] :: h :: t else (a :: h) :: t

/-- Python `str.startswith(pat)`. -/
def pyStartswith (s pat : List Char) : Bool := s.take pat.length == pat

/-- Python `str.index(ch)`: position of the first occurrence, `none` when the
character is absent (where Python raises `ValueError`). -/
def pyIndex (s : List Char) (c : Char) : Option Nat := s.findIdx? (fun a => a = c)

/-- Python substring containment (`pat in s` / `s.__contains__(pat)`). -/
def containsSub : List Char → List Char → Bool
  | s, pat =>
    if pyStartswith s pat then true
    else match s with
      | [] => false
      | _ :: rest => containsSub rest pat

/-- Python string `<` (lexicographic by code point, shorter-is-smaller on a
tie prefix); used by the `srt` pair-normalisation in `getInteractions`. -/
def pyLtChars : List Char → List Char → Bool
  | [], [] => false
  | [], _ :: _ => true
  | _ :: _, [] => false
  | a :: as, b :: bs => if a = b then pyLtChars as bs else decide (a < b)

/-- Python `"\n".replace` of each newline by `". "` as done on the joined
paragraph text in `extractInteraction`. -/
def pyReplaceNl : List Char → List Char
  | [] => []
  | c :: rest =>
    if c = '\n' then '.' :: ' ' :: pyReplaceNl rest else c :: pyReplaceNl rest

/-- Lookup in a Python dict embedded as an insertion-ordered association
list. -/
def alLookup (al : List (List Char × α)) (k : List Char) : Option α :=
  (al.find? (fun p => p.1 == k)).map (fun p => p.2)

/-- Python `key in dict`. -/
def alContains (al : List (List Char × α)) (k : List Char) : Bool :=
  (alLookup al k).isSome

/-- Python `dict[key] = value` (keeps the position of an existing key,
appends a new one). -/
def alInsert (al : List (List Char × α)) (k : List Char) (v : α) :
    List (List Char × α) :=
  if alContains al k then al.map (fun p => if p.1 == k then (k, v) else p)
  else al ++ [(k, v)]

/-- Events observable in a run of the scraping scripts: an HTTP request to a
URL, or a `time.sleep(n)`. -/
inductive TraceEv where
  | request : List Char → TraceEv
  | sleep : Nat → TraceEv
deriving DecidableEq

/-- Helper for `reqSep`: `armed` records that a request was seen and no
`sleep k` has followed it yet. -/
def reqSepAux (k : Nat) : Bool → List TraceEv → Bool
  | _, [] => true
  | armed, TraceEv.request _ :: rest =>
    if armed then false else reqSepAux k true rest
  | armed, TraceEv.sleep m :: rest =>
    if armed && (m == k) then reqSepAux k false rest else reqSepAux k armed rest

/-- Every two consecutive `request` events of the trace have a `sleep k`
between them. -/
def reqSep (k : Nat) (tr : List TraceEv) : Bool := reqSepAux k false tr

/-- The literal JSON-response sniffing pattern of `parsex`:
`v.startswith('\x7b"categories":')`. -/
def jsonSniff : List Char := "\x7b\"categories\":".toList

/-- The autocomplete URL around the drug name (`Pref % drugName`). -/
def retrieveURL (drug : List Char) : List Char :=
  "https://www.drugs.com/api/autocomplete/?id=livesearch-interaction&s=".toList
    ++ drug ++ "&data-autocomplete=interaction".toList

/-- `INTER_PREF`, the interaction-check URL root. -/
def interPref : List Char :=
  "https://www.drugs.com/interactions-check.php?drug_list=".toList

/-- The no-interaction marker looked for by `extractInteraction` (the mojibake
characters are the ones in the source). -/
def noInterMarker : List Char :=
  "No drug â¬Œ drug interactions were found".toList

/-- Embedding of the Python values `json.loads` can produce. -/
inductive PyJson where
  | jstr : List Char → PyJson
  | jnum : Int → PyJson
  | jbool : Bool → PyJson
  | jnull : PyJson
  | jarr : List PyJson → PyJson
  | jobj : List (List Char × PyJson) → PyJson

/-- Python `obj[key]` on a decoded JSON value: a raised `TypeError`/`KeyError`
is `none`. -/
def PyJson.getKey : PyJson → List Char → Option PyJson
  | PyJson.jobj fields, k => (fields.find? (fun p => p.1 == k)).map (fun p => p.2)
  | _, _ => none

/-- Python `obj[i]` on a decoded JSON value: a raised
`TypeError`/`IndexError` is `none`. -/
def PyJson.getIdx : PyJson → Nat → Option PyJson
  | PyJson.jarr xs, i => xs[i]?
  | _, _ => none

/-- Python `"%s" % value` on a decoded JSON value (composite values are not
rendered in full; no theorem depends on their rendering). -/
def pyStrOf : PyJson → List Char
  | PyJson.jstr s => s
  | PyJson.jnum n => (toString n).toList
  | PyJson.jbool true => "True".toList
  | PyJson.jbool false => "False".toList
  | PyJson.jnull => "None".toList
  | PyJson.jarr _ => []
  | PyJson.jobj _ => []

/-- The `try:` body of the `parsex` loop for one stored response `v`:
`none` is a raised exception (swallowed by the bare `except`), `some rex` the
list of extracted values.  `jsonLoads` is the third-party `json.loads` and
`findLsItemOnclick` the BeautifulSoup lookup of the `onclick` attribute of the
first `a.ls-item` anchor (`none` for no anchor / no attribute / parse error). -/
def parsexTry (jsonLoads : List Char → Option PyJson)
    (findLsItemOnclick : List Char → Option (List Char)) (v : List Char) :
    Option (List (List Char)) :=
  if pyStartswith v jsonSniff then
    match jsonLoads v with
    | none => none
    | some jsonObj =>
      match jsonObj.getKey ("categories".toList) with
      | none => none
      | some info1 =>
        match info1.getIdx 0 with
        | none => none
        | some cat0 =>
          match cat0.getKey ("results".toList) with
          | none => none
          | some results =>
            match results.getIdx 0 with
            | none => none
            | some info1b =>
              match info1b.getKey ("ddc_id".toList),
                  info1b.getKey ("brand_name_id".toList) with
              | some dv, some bv => some [pyStrOf dv, pyStrOf bv]
              | _, _ => none
  else
    match findLsItemOnclick v with
    | none => none
    | some txt =>
      match pyIndex txt '(', pyIndex txt ')' with
      | some i1, some i2 =>
        some ((pySplit ',' ((txt.take i2).drop (i1 + 1))).map
          (fun part => ((pyStrip part).dropLast).drop 1))
      | _, _ => none

/-- The `rex` list after the `try`/`except` of one `parsex` iteration: empty
when the body raised. -/
def parsexItemRex (jsonLoads : List Char → Option PyJson)
    (findLsItemOnclick : List Char → Option (List Char)) (v : List Char) :
    List (List Char) :=
  match parsexTry jsonLoads findLsItemOnclick v with
  | none => []
  | some rex => rex

/-- The lines one `parsex` iteration writes for the item `(k, v)`:
`k||v1,...,vn` when `rex` is non-empty, nothing otherwise. -/
def parsexItemLines (jsonLoads : List Char → Option PyJson)
    (findLsItemOnclick : List Char → Option (List Char)) (k v : List Char) :
    List (List Char) :=
  let rex := parsexItemRex jsonLoads findLsItemOnclick v
  if rex.length > 0 then
    [k ++ "||".toList ++ List.intercalate (",".toList) rex ++ "\n".toList]
  else []

/-- The whole `parsex` loop over the stored `(drug name, raw response)`
items, accumulating the written lines. -/
def parsexRun (jsonLoads : List Char → Option PyJson)
    (findLsItemOnclick : List Char → Option (List Char))
    (items : List (List Char × List Char)) : List (List Char) :=
  items.foldl
    (fun out kv => out ++ parsexItemLines jsonLoads findLsItemOnclick kv.1 kv.2) []

/-- Reading `categories[0].results[0]` and its `ddc_id`/`brand_name_id`
fields from the JSON-decoded response, as the spec describes the JSON branch
of `parsex`; no values when any access fails. -/
def jsonRexOf (jsonLoads : List Char → Option PyJson) (v : List Char) :
    List (List Char) :=
  match jsonLoads v with
  | none => []
  | some j =>
    match j.getKey ("categories".toList) with
    | none => []
    | some info1 =>
      match info1.getIdx 0 with
      | none => []
      | some cat0 =>
        match cat0.getKey ("results".toList) with
        | none => []
        | some results =>
          match results.getIdx 0 with
          | none => []
          | some info1b =>
            match info1b.getKey ("ddc_id".toList),
                info1b.getKey ("brand_name_id".toList) with
            | some dv, some bv => [pyStrOf dv, pyStrOf bv]
            | _, _ => []

/-- Extracting the parenthesised comma-separated values of the `onclick`
attribute of the first `a.ls-item` anchor, as the spec describes the HTML
branch of `parsex`: each comma piece is stripped and its first and last
character (the quotes) removed. -/
def htmlRexOf (findLsItemOnclick : List Char → Option (List Char))
    (v : List Char) : List (List Char) :=
  match findLsItemOnclick v with
  | none => []
  | some txt =>
    match pyIndex txt '(', pyIndex txt ')' with
    | some i1, some i2 =>
      (pySplit ',' ((txt.take i2).drop (i1 + 1))).map
        (fun part => ((pyStrip part).dropLast).drop 1)
    | _, _ => []

/-- Embedding of `downloadDrugWebId`: walk the drug list, skip drugs already
in the response dict, otherwise request the autocomplete URL (`getTextURL`,
an oracle whose `none` is a raised exception, which this function does not
catch: the run stops) and `time.sleep(3)`.  Returns the event trace and the
final dict. -/
def dwRun (getTextURL : List Char → Option (List Char)) :
    List (List Char × List Char) → List (List Char) →
      List TraceEv × List (List Char × List Char)
  | dict, [] => ([], dict)
  | dict, drug :: rest =>
    if alContains dict drug then dwRun getTextURL dict rest
    else
      match getTextURL (retrieveURL drug) with
      | none => ([TraceEv.request (retrieveURL drug)], dict)
      | some t =>
        let res := dwRun getTextURL (alInsert dict drug t) rest
        (TraceEv.request (retrieveURL drug) :: TraceEv.sleep 3 :: res.1, res.2)

/-- Fixed environment of the `getInteractions` prediction loop: the
name-to-web-id dict parsed from the id file (whose key set is `validDrugs`),
the previously stored pair set `currentRe`, and the browser
(`browser.get` + `find_elements('body')[0].get_attribute('innerHTML')`) as an
oracle from URL to page body, `none` being an exception raised after the
request was issued. -/
structure GIEnv where
  webId : List (List Char × List Char)
  currentRe : List (List Char)
  pageBody : List Char → Option (List Char)

/-- The local `srt` of `getInteractions`: order a drug pair. -/
def srt (v1 v2 : List Char) : List Char × List Char :=
  if pyLtChars v2 v1 then (v2, v1) else (v1, v2)

/-- The `try:` body of one `getInteractions` iteration: the events it emits,
and `none` when it raises (caught by the `except ... continue`), otherwise
the new accumulated response dict. -/
def giLineBody (env : GIEnv) (st : List (List Char × List Char))
    (line : List Char) : List TraceEv × Option (List (List Char × List Char)) :=
  let lineL := pyLower (pyStrip line)
  let parts := pySplit ',' lineL
  match parts[0]?, parts[1]? with
  | some p0, some p1 =>
    let d1 := pyStrip p0
    let d2 := pyStrip p1
    let dd := srt d1 d2
    if !(alContains env.webId dd.1) || !(alContains env.webId dd.2) then
      ([], some st)
    else
      let p := dd.1 ++ ",".toList ++ dd.2
      if env.currentRe.contains p then ([], some st)
      else
        let pair := (alLookup env.webId dd.1).getD [] ++ ",".toList
          ++ (alLookup env.webId dd.2).getD []
        let urlx := interPref ++ pair
        match env.pageBody urlx with
        | none => ([TraceEv.request urlx], none)
        | some html =>
          ([TraceEv.request urlx, TraceEv.sleep 4], some (alInsert st p html))
  | _, _ => ([], none)

/-- The `getInteractions` prediction loop: each line's exceptions are
swallowed (`except: continue`), keeping the dict unchanged; events and the
final dict are returned. -/
def giRunT (env : GIEnv) :
    List (List Char × List Char) → List (List Char) →
      List TraceEv × List (List Char × List Char)
  | st, [] => ([], st)
  | st, line :: rest =>
    let res := giLineBody env st line
    let next := giRunT env (res.2.getD st) rest
    (res.1 ++ next.1, next.2)

/-- The interactions-reference wrapper `div` of a stored response, as found
by BeautifulSoup in `extractInteraction`: its text and its `<p>` paragraph
texts. -/
structure WrapperDiv where
  text : List Char
  paras : List (List Char)

/-- One `extractInteraction` iteration for the pair `k` with stored response
`v`: the optional line written to `PairNoMatching.txt` and the optional line
written to `PairMatching.txt`.  `findWrapper` is the BeautifulSoup lookup of
the `interactions-reference-wrapper` div (`none` when absent, making both
`div.text` and `div.findAll` raise, each caught by its own `except`). -/
def extractItem (findWrapper : List Char → Option WrapperDiv) (k v : List Char) :
    Option (List Char) × Option (List Char) :=
  let step1 : Option (Option (List Char) × Bool) :=
    match findWrapper v with
    | none => none
    | some div =>
      if containsSub div.text noInterMarker then some (some (k ++ "\n".toList), true)
      else some (none, false)
  let w1 := match step1 with
    | none => (none, false)
    | some r => r
  if w1.2 then (w1.1, none)
  else
    let step2 : Option (List Char) :=
      match findWrapper v with
      | none => none
      | some div =>
        some (k ++ "||".toList
          ++ pyReplaceNl (List.intercalate (". ".toList) div.paras) ++ "\n".toList)
    match step2 with
    | none => (w1.1, none)
    | some lineM => (w1.1, some lineM)

/-- C5: `parsex` decodes a stored response as JSON (reading
`categories[0].results[0].ddc_id` and `brand_name_id`) exactly when the
response starts with the literal `\x7b"categories":`, parses it as HTML
(parenthesised comma-separated `onclick` values of the first `a.ls-item`
anchor) otherwise, and writes a line for the drug name iff at least one value
was extracted. -/
theorem parsex_branch_selection (jl : List Char → Option PyJson)
    (fo : List Char → Option (List Char)) (k v : List Char) :
    parsexItemRex jl fo v =
      (if pyStartswith v jsonSniff then jsonRexOf jl v else htmlRexOf fo v) ∧
    (parsexItemLines jl fo k v ≠ [] ↔ parsexItemRex jl fo v ≠ []) := by
  constructor
  · by_cases h : pyStartswith v jsonSniff
    · rw [if_pos h]
      simp only [parsexItemRex, parsexTry, jsonRexOf, if_pos h]
      cases jl v with
      | none => rfl
      | some j =>
        dsimp only
        cases j.getKey ("categories".toList) with
        | none => rfl
        | some info1 =>
          dsimp only
          cases info1.getIdx 0 with
          | none => rfl
          | some cat0 =>
            dsimp only
            cases cat0.getKey ("results".toList) with
            | none => rfl
            | some results =>
              dsimp only
              cases results.getIdx 0 with
              | none => rfl
              | some info1b =>
                dsimp only
                cases info1b.getKey ("ddc_id".toList) with
                | none => rfl
                | some dv =>
                  cases info1b.getKey ("brand_name_id".toList) with
                  | none => rfl
                  | some bv => rfl
    · rw [if_neg h]
      simp only [parsexItemRex, parsexTry, htmlRexOf, if_neg h]
      cases fo v with
      | none => rfl
      | some txt =>
        dsimp only
        cases pyIndex txt '(' with
        | none => rfl
        | some i1 =>
          cases pyIndex txt ')' with
          | none => rfl
          | some i2 => rfl
  · simp only [parsexItemLines]
    by_cases hr : (parsexItemRex jl fo v).length > 0
    · rw [if_pos hr]
      constructor
      · intro _ hnil
        rw [hnil] at hr
        simp at hr
      · intro _
        simp
    · rw [if_neg hr]
      have hnil : parsexItemRex jl fo v = [] := by
        cases hx : parsexItemRex jl fo v with
        | nil => rfl
        | cons a t => rw [hx] at hr; simp at hr
      simp [hnil]

theorem giRunT_snd_append (env : GIEnv) (st : List (List Char × List Char))
    (l1 l2 : List (List Char)) :
    (giRunT env st (l1 ++ l2)).2 = (giRunT env (giRunT env st l1).2 l2).2 := by
  induction l1 generalizing st with
  | nil => rfl
  | cons a t ih =>
    simp only [giRunT, List.cons_append]
    exact ih _

theorem parsexRun_shift (jl : List Char → Option PyJson)
    (fo : List Char → Option (List Char))
    (items : List (List Char × List Char)) (out0 : List (List Char)) :
    items.foldl
        (fun out kv => out ++ parsexItemLines jl fo kv.1 kv.2) out0 =
      out0 ++ parsexRun jl fo items := by
  induction items generalizing out0 with
  | nil => simp [parsexRun]
  | cons a t ih =>
    simp only [parsexRun, List.foldl_cons]
    rw [ih (out0 ++ parsexItemLines jl fo a.1 a.2),
      ih ([] ++ parsexItemLines jl fo a.1 a.2)]
    simp [List.append_assoc]

/-- C4: exceptions in the scraping loops are swallowed per item and iteration
continues: dropping a prediction line whose `getInteractions` body raises
(reached with the dict accumulated over the preceding lines) does not change
the final response dict, and dropping a stored response whose `parsex` body
raises does not change the written output; results of earlier items are
untouched (there is no retry in either loop). -/
theorem scrape_exception_swallowed (env : GIEnv)
    (st0 : List (List Char × List Char)) (pre post : List (List Char))
    (bad : List Char) (jl : List Char → Option PyJson)
    (fo : List Char → Option (List Char))
    (preP postP : List (List Char × List Char)) (k v : List Char)
    (h1 : (giLineBody env (giRunT env st0 pre).2 bad).2 = none)
    (h2 : parsexTry jl fo v = none) :
    (giRunT env st0 (pre ++ bad :: post)).2 = (giRunT env st0 (pre ++ post)).2 ∧
    parsexRun jl fo (preP ++ (k, v) :: postP) = parsexRun jl fo (preP ++ postP) := by
  constructor
  · rw [giRunT_snd_append, giRunT_snd_append]
    simp only [giRunT]
    rw [h1]
    rfl
  · have hlines : parsexItemLines jl fo k v = [] := by
      simp [parsexItemLines, parsexItemRex, h2]
    simp only [parsexRun, List.foldl_append, List.foldl_cons]
    rw [hlines]
    simp

/-- Concrete environment for the C4 witness: an uncaught-shape prediction
line (no comma, so `parts[1]` raises `IndexError`) and oracles on which the
`parsex` body raises. -/
def envC4 : GIEnv := ⟨[], [], fun _ => some []⟩

/-- Witness for C4: the failing items change nothing. -/
theorem scrape_exception_swallowed_instance :
    (giRunT envC4 [] ([] ++ "x".toList :: [])).2 = (giRunT envC4 [] ([] ++ [])).2 ∧
    parsexRun (fun _ => none) (fun _ => none)
        ([] ++ ("k".toList, "zz".toList) :: []) =
      parsexRun (fun _ => none) (fun _ => none) ([] ++ []) :=
  scrape_exception_swallowed envC4 [] [] [] ("x".toList) (fun _ => none)
    (fun _ => none) [] [] ("k".toList) ("zz".toList) rfl rfl

/-- The classification behaviour C6 asserts of `extractInteraction`: a pair
whose wrapper text contains the marker goes to the no-matching file, and
every other pair goes to the matching file. -/
def extractClaimProp : Prop :=
  ∀ (findWrapper : List Char → Option WrapperDiv) (k v : List Char),
    ((∃ div, findWrapper v = some div ∧ containsSub div.text noInterMarker = true) →
      (extractItem findWrapper k v).1.isSome = true) ∧
    ((¬ ∃ div, findWrapper v = some div ∧ containsSub div.text noInterMarker = true) →
      (extractItem findWrapper k v).2.isSome = true)

/-- C6 counterexample: a response with no `interactions-reference-wrapper`
div (both `try` blocks raise) is written to neither file, refuting that every
non-no-interaction pair is written to `PairMatching.txt`. -/
theorem extractInteraction_claim_false : ¬ extractClaimProp := by
  intro h
  have hno : ¬ ∃ div,
      (fun (_ : List Char) => (none : Option WrapperDiv)) [] = some div ∧
        containsSub div.text noInterMarker = true := by
    rintro ⟨d, hd, _⟩
    exact Option.noConfusion hd
  exact absurd ((h (fun _ => none) [] []).2 hno) (by decide)

/-- C6 (amended): when the wrapper div is found, the pair is written to
exactly one of the two files — `PairNoMatching.txt` iff its text contains the
no-interaction marker, otherwise `PairMatching.txt` with the joined paragraph
texts; when the div is absent, the pair is written to neither file. -/
theorem extractInteraction_classification
    (findWrapper : List Char → Option WrapperDiv) (k v : List Char) :
    extractItem findWrapper k v =
      match findWrapper v with
      | none => (none, none)
      | some div =>
        if containsSub div.text noInterMarker then (some (k ++ "\n".toList), none)
        else (none, some (k ++ "||".toList
          ++ pyReplaceNl (List.intercalate (". ".toList) div.paras)
          ++ "\n".toList)) := by
  cases hf : findWrapper v with
  | none => simp [extractItem, hf]
  | some div =>
    by_cases hm : containsSub div.text noInterMarker
    · simp [extractItem, hf, hm]
    · simp [extractItem, hf, hm]

/-- The temporal behaviour C7 asserts: every consecutive pair of requests of
`downloadDrugWebId` is separated by `sleep(3)`, and of `getInteractions` by
`sleep(4)`. -/
def sleepSeparatedProp : Prop :=
  (∀ (getTextURL : List Char → Option (List Char))
      (dict0 : List (List Char × List Char)) (drugs : List (List Char)),
    reqSep 3 (dwRun getTextURL dict0 drugs).1 = true) ∧
  (∀ (env : GIEnv) (st0 : List (List Char × List Char))
      (lines : List (List Char)),
    reqSep 4 (giRunT env st0 lines).1 = true)

/-- Environment refuting C7: the body lookup raises on the first
interaction-check page (after `browser.get` issued the request), so the
`except: continue` skips the `time.sleep(4)` and the next request follows
immediately. -/
def envC7 : GIEnv :=
  ⟨[("a".toList, "1".toList), ("b".toList, "2".toList), ("c".toList, "3".toList)],
   [],
   fun u => if u == interPref ++ "1,2".toList then none else some ("x".toList)⟩

/-- C7 counterexample: with `envC7`, the trace of `getInteractions` on the
two prediction lines `a,b` and `a,c` contains two adjacent requests with no
sleep between them. -/
theorem sleep_separation_claim_false : ¬ sleepSeparatedProp := by
  intro h
  exact absurd (h.2 envC7 [] ["a,b".toList, "a,c".toList]) (by decide)

theorem reqSepAux_req_sleep (k : Nat) (u : List Char) (tr : List TraceEv) :
    reqSepAux k false (TraceEv.request u :: TraceEv.sleep k :: tr) =
      reqSepAux k false tr := by
  simp [reqSepAux]

theorem dwRun_reqSep (getTextURL : List Char → Option (List Char))
    (drugs : List (List Char)) (dict : List (List Char × List Char)) :
    reqSep 3 (dwRun getTextURL dict drugs).1 = true := by
  induction drugs generalizing dict with
  | nil => rfl
  | cons d rest ih =>
    simp only [dwRun]
    by_cases hc : alContains dict d
    · rw [if_pos hc]
      exact ih _
    · rw [if_neg hc]
      cases hg : getTextURL (retrieveURL d) with
      | none => rfl
      | some t =>
        show reqSep 3 (TraceEv.request (retrieveURL d) :: TraceEv.sleep 3 ::
          (dwRun getTextURL (alInsert dict d t) rest).1) = true
        rw [reqSep, reqSepAux_req_sleep]
        exact ih _

theorem giLineBody_events (env : GIEnv) (st : List (List Char × List Char))
    (line : List Char) (hok : ∀ u, env.pageBody u ≠ none) :
    (giLineBody env st line).1 = [] ∨
    ∃ u, (giLineBody env st line).1 = [TraceEv.request u, TraceEv.sleep 4] := by
  simp only [giLineBody]
  split
  · split
    · left; rfl
    · split
      · left; rfl
      · split
        · rename_i heq
          exact absurd heq (hok _)
        · right
          exact ⟨_, rfl⟩
  · left; rfl

theorem giRunT_reqSep (env : GIEnv) (hok : ∀ u, env.pageBody u ≠ none)
    (lines : List (List Char)) (st : List (List Char × List Char)) :
    reqSep 4 (giRunT env st lines).1 = true := by
  induction lines generalizing st with
  | nil => rfl
  | cons line rest ih =>
    simp only [giRunT]
    rcases giLineBody_events env st line hok with h | ⟨u, h⟩
    · rw [h, List.nil_append]
      exact ih _
    · rw [h]
      show reqSep 4 (TraceEv.request u :: TraceEv.sleep 4 :: _) = true
      rw [reqSep, reqSepAux_req_sleep]
      exact ih _

/-- C7 (amended): `downloadDrugWebId` always sleeps 3 seconds between
consecutive autocomplete requests (an uncaught `getTextURL` failure aborts the
run, so no further request follows it); `getInteractions` sleeps 4 seconds
between consecutive interaction-check requests provided no page-processing
step raises after a request — a line whose body raises after `browser.get`
skips its sleep, as the C7 counterexample shows. -/
theorem sleep_separation_amended (getTextURL : List Char → Option (List Char))
    (dict0 : List (List Char × List Char)) (drugs : List (List Char))
    (env : GIEnv) (st0 : List (List Char × List Char))
    (lines : List (List Char)) (hok : ∀ u, env.pageBody u ≠ none) :
    reqSep 3 (dwRun getTextURL dict0 drugs).1 = true ∧
    reqSep 4 (giRunT env st0 lines).1 = true :=
  ⟨dwRun_reqSep getTextURL drugs dict0, giRunT_reqSep env hok lines st0⟩

/-- Environment for the C7 witness: every page lookup succeeds. -/
def envOK : GIEnv := ⟨[("a".toList, "1".toList), ("b".toList, "2".toList)], [],
  fun _ => some ("x".toList)⟩

/-- Witness for the amended C7 on concrete runs. -/
theorem sleep_separation_amended_instance :
    reqSep 3 (dwRun (fun _ => none) [] ["a".toList]).1 = true ∧
    reqSep 4 (giRunT envOK [] ["a,b".toList]).1 = true :=
  sleep_separation_amended (fun _ => none) [] ["a".toList] envOK []
    ["a,b".toList] (fun _ h => Option.noConfusion h)

/-!
Part 3 embeds `src/gen_tsui_c5.py` (`export_tsui`).  The input file is a list
of lines (without trailing newlines); the output is the concatenation of the
chunks passed to `fout.write`.  Python's leaking `for` variable is modelled
faithfully: after a flush, the loop variable `se` holds the last element of
the flushed `c_ses[:-1]` when that slice is non-empty.  `none` models an
uncaught exception (IndexError on a short line, NameError after an empty
loop, AssertionError). -/

/-- Modelled from the spec: `utils.utils.get_dict(d, key, default)` is not
under `src/`; following the claim and spec wording it is a plain dictionary
lookup that falls back to the default when the key is absent — the `-1`
default used by `export_tsui` is modelled as `none`. -/
def get_dict (d : List (List Char × List Char)) (k : List Char) :
    Option (List Char) :=
  (d.find? (fun p => p.1 == k)).map (fun p => p.2)

/-- The mutable state of the `export_tsui` loop: the previous group key
`p_drugpair`, the accumulated side effects `c_ses`, and the current values of
the Python variables `se`, `drug1`, `drug2`; `out` is the list of chunks
written so far. -/
structure TsuiSt where
  p_drugpair : List Char
  c_ses : List (List Char)
  se : List Char
  drug1 : List Char
  drug2 : List Char
  out : List (List Char)

/-- The loop state before the first data line (`p_drugpair = ""`,
`c_ses = []`; the other variables are still unassigned and never read). -/
def tsuiInit : TsuiSt := ⟨[], [], [], [], [], []⟩

/-- The guarded `drug1|drug2|c1|c2|` prefix write of `export_tsui`: the chunk
is written only when both `get_dict` lookups succeed (neither returned the
`-1` default). -/
def pairHeader (code : List (List Char × List Char)) (d1 d2 : List Char) :
    List (List Char) :=
  match get_dict code d1, get_dict code d2 with
  | some c1v, some c2v =>
    [d1 ++ "|".toList ++ d2 ++ "|".toList ++ c1v ++ "|".toList
      ++ c2v ++ "|".toList]
  | _, _ => []

/-- One iteration of the `export_tsui` while-loop: split the line, and on a
group change flush the previous group — the `drug1|drug2|c1|c2|` prefix (only
when both `get_dict` lookups succeed) from the CURRENT line's drugs, then the
comma-separated side effects; then reset and append `se`, whose value the
flush's `for` loop leaks. -/
def tsuiStep (code : List (List Char × List Char)) (st : TsuiSt)
    (line : List Char) : Option TsuiSt :=
  match pySplit ',' (pyStrip line) with
  | drug1 :: drug2 :: se0 :: _ =>
    let d_pair := drug1 ++ "_".toList ++ drug2
    if d_pair ≠ st.p_drugpair then
      let flushed :=
        if st.c_ses ≠ [] then
          let pre := pairHeader code drug1 drug2
          let mids := st.c_ses.dropLast.map (fun x => x ++ ",".toList)
          let lastw := [st.c_ses.getLastD [] ++ "\n".toList]
          let seNew := (st.c_ses.dropLast).getLastD se0
          (pre ++ mids ++ lastw, seNew)
        else ([], se0)
      some { p_drugpair := d_pair, c_ses := [flushed.2], se := flushed.2,
             drug1 := drug1, drug2 := drug2, out := st.out ++ flushed.1 }
    else
      some { st with c_ses := st.c_ses ++ [se0], se := se0, drug1 := drug1, drug2 := drug2 }
  | _ => none

/-- The `export_tsui` while-loop over the data lines. -/
def tsuiRun (code : List (List Char × List Char)) :
    TsuiSt → List (List Char) → Option TsuiSt
  | st, [] => some st
  | st, l :: rest =>
    match tsuiStep code st l with
    | none => none
    | some st' => tsuiRun code st' rest

/-- Embedding of `export_tsui`: skip the header line, run the loop, then
flush the last group (prefix from the last line's `drug1`/`drug2` — its own
pair — only when both lookups succeed, `assert len(c_ses) > 0`, side
effects).  The result is the whole output file content. -/
def export_tsui (code : List (List Char × List Char))
    (fileLines : List (List Char)) : Option (List Char) :=
  match fileLines with
  | [] => none
  | _hdr :: rest =>
    if rest.isEmpty then none
    else
      match tsuiRun code tsuiInit rest with
      | none => none
      | some st =>
        let pre := pairHeader code st.drug1 st.drug2
        match st.c_ses.getLast? with
        | none => none
        | some lastSe =>
          some (List.flatten (st.out ++ pre
            ++ st.c_ses.dropLast.map (fun x => x ++ ",".toList)
            ++ [lastSe ++ "\n".toList]))

theorem tsuiRun_append (code : List (List Char × List Char)) (st : TsuiSt)
    (l1 l2 : List (List Char)) :
    tsuiRun code st (l1 ++ l2) =
      match tsuiRun code st l1 with
      | none => none
      | some st' => tsuiRun code st' l2 := by
  induction l1 generalizing st with
  | nil => rfl
  | cons a t ih =>
    simp only [List.cons_append, tsuiRun]
    cases tsuiStep code st a with
    | none => rfl
    | some st' => exact ih st'

theorem tsuiRun_same_pair (code : List (List Char × List Char))
    (a1 a2 : List Char) (lrest srest : List (List Char))
    (hfa : List.Forall₂
      (fun l s => pySplit ',' (pyStrip l) = [a1, a2, s]) lrest srest) :
    ∀ (acc : List (List Char)) (se0 : List Char) (out0 : List (List Char)),
      tsuiRun code
          { p_drugpair := a1 ++ "_".toList ++ a2, c_ses := acc, se := se0,
            drug1 := a1, drug2 := a2, out := out0 } lrest =
        some { p_drugpair := a1 ++ "_".toList ++ a2, c_ses := acc ++ srest,
               se := srest.getLastD se0, drug1 := a1, drug2 := a2,
               out := out0 } := by
  induction hfa with
  | nil =>
    intro acc se0 out0
    simp [tsuiRun]
  | cons hls hfa ih =>
    rename_i l s lrest' srest'
    intro acc se0 out0
    simp only [tsuiRun, tsuiStep, hls]
    rw [if_neg (fun hne => hne rfl)]
    dsimp only
    rw [ih (acc ++ [s]) s out0]
    rw [List.getLastD_cons]
    have hl : (acc ++ [s]) ++ srest' = acc ++ s :: srest' := by simp
    rw [hl]

theorem tsui_two_group (code : List (List Char × List Char))
    (a1 a2 b1 b2 sb : List Char) (lA1 s : List Char)
    (lArest srest : List (List Char)) (lB : List Char)
    (hA1 : pySplit ',' (pyStrip lA1) = [a1, a2, s])
    (hArest : List.Forall₂
      (fun l s' => pySplit ',' (pyStrip l) = [a1, a2, s']) lArest srest)
    (hB : pySplit ',' (pyStrip lB) = [b1, b2, sb])
    (hne : b1 ++ "_".toList ++ b2 ≠ a1 ++ "_".toList ++ a2) :
    tsuiRun code tsuiInit (lA1 :: (lArest ++ [lB])) =
      some { p_drugpair := b1 ++ "_".toList ++ b2,
             c_ses := [((s :: srest).dropLast).getLastD sb],
             se := ((s :: srest).dropLast).getLastD sb,
             drug1 := b1, drug2 := b2,
             out := pairHeader code b1 b2
               ++ ((s :: srest).dropLast.map (fun x => x ++ ",".toList)
                 ++ [(s :: srest).getLastD [] ++ "\n".toList]) } := by
  have hne0 : a1 ++ "_".toList ++ a2 ≠ ([] : List Char) := by
    intro h
    have hlen := congrArg List.length h
    simp at hlen
  have hstep1 : tsuiStep code tsuiInit lA1 =
      some { p_drugpair := a1 ++ "_".toList ++ a2, c_ses := [s], se := s,
             drug1 := a1, drug2 := a2, out := [] } := by
    simp only [tsuiStep, hA1, tsuiInit]
    rw [if_pos hne0, if_neg (fun hx => hx rfl)]
    rfl
  have hA := tsuiRun_same_pair code a1 a2 lArest srest hArest [s] s []
  simp only [List.singleton_append] at hA
  have hstepB : tsuiStep code
      { p_drugpair := a1 ++ "_".toList ++ a2, c_ses := s :: srest,
        se := srest.getLastD s, drug1 := a1, drug2 := a2, out := [] } lB =
      some { p_drugpair := b1 ++ "_".toList ++ b2,
             c_ses := [((s :: srest).dropLast).getLastD sb],
             se := ((s :: srest).dropLast).getLastD sb,
             drug1 := b1, drug2 := b2,
             out := pairHeader code b1 b2
               ++ ((s :: srest).dropLast.map (fun x => x ++ ",".toList)
                 ++ [(s :: srest).getLastD [] ++ "\n".toList]) } := by
    simp only [tsuiStep, hB]
    rw [if_pos hne, if_pos (List.cons_ne_nil s srest)]
    simp [List.append_assoc]
  simp only [tsuiRun, hstep1]
  rw [tsuiRun_append, hA]
  simp only [tsuiRun, hstepB]

/-- C8: when the first group (pair `a1_a2`) is flushed upon reading the first
line of the next group (pair `b1_b2`), the `drug1|drug2|c1|c2|` prefix names
`b1`/`b2` and their codes — the next group's pair — while the side-effect list
written with it is the first group's; only the final flush (here of the group
started by `lB`) carries a prefix naming its own pair. -/
theorem export_tsui_flush_uses_next_group_names
    (code : List (List Char × List Char)) (hdr : List Char)
    (a1 a2 b1 b2 sb cb1 cb2 : List Char) (lA1 s : List Char)
    (lArest srest : List (List Char)) (lB : List Char)
    (hA1 : pySplit ',' (pyStrip lA1) = [a1, a2, s])
    (hArest : List.Forall₂
      (fun l s' => pySplit ',' (pyStrip l) = [a1, a2, s']) lArest srest)
    (hB : pySplit ',' (pyStrip lB) = [b1, b2, sb])
    (hne : b1 ++ "_".toList ++ b2 ≠ a1 ++ "_".toList ++ a2)
    (hc1 : get_dict code b1 = some cb1)
    (hc2 : get_dict code b2 = some cb2) :
    ∃ st, tsuiRun code tsuiInit (lA1 :: (lArest ++ [lB])) = some st ∧
      st.out = (b1 ++ "|".toList ++ b2 ++ "|".toList ++ cb1 ++ "|".toList
          ++ cb2 ++ "|".toList)
        :: ((s :: srest).dropLast.map (fun x => x ++ ",".toList)
          ++ [(s :: srest).getLastD [] ++ "\n".toList]) ∧
      st.drug1 = b1 ∧ st.drug2 = b2 ∧
      export_tsui code (hdr :: lA1 :: (lArest ++ [lB])) =
        some (List.flatten (st.out
          ++ (b1 ++ "|".toList ++ b2 ++ "|".toList ++ cb1 ++ "|".toList
            ++ cb2 ++ "|".toList)
          :: [((s :: srest).dropLast.getLastD sb) ++ "\n".toList])) := by
  have hpre : pairHeader code b1 b2 =
      [b1 ++ "|".toList ++ b2 ++ "|".toList ++ cb1 ++ "|".toList
        ++ cb2 ++ "|".toList] := by
    simp [pairHeader, hc1, hc2]
  have hrun := tsui_two_group code a1 a2 b1 b2 sb lA1 s lArest srest lB
    hA1 hArest hB hne
  rw [hpre] at hrun
  refine ⟨_, hrun, ?_, rfl, rfl, ?_⟩
  · rfl
  · simp only [export_tsui]
    rw [if_neg (by simp)]
    rw [hrun]
    dsimp only
    rw [hpre]
    simp [List.append_assoc]

/-- C9: a flushed group writes its comma-separated side-effect list
unconditionally, while the `drug1|drug2|c1|c2|` prefix is written only when
both `get_dict` lookups succeed; with a failed lookup the side effects still
appear, with no pair prefix (at the mid-loop flush and the final flush
alike). -/
theorem export_tsui_ses_written_unconditionally
    (code : List (List Char × List Char)) (hdr : List Char)
    (a1 a2 b1 b2 sb : List Char) (lA1 s : List Char)
    (lArest srest : List (List Char)) (lB : List Char)
    (hA1 : pySplit ',' (pyStrip lA1) = [a1, a2, s])
    (hArest : List.Forall₂
      (fun l s' => pySplit ',' (pyStrip l) = [a1, a2, s']) lArest srest)
    (hB : pySplit ',' (pyStrip lB) = [b1, b2, sb])
    (hne : b1 ++ "_".toList ++ b2 ≠ a1 ++ "_".toList ++ a2)
    (hfail : get_dict code b1 = none ∨ get_dict code b2 = none) :
    ∃ st, tsuiRun code tsuiInit (lA1 :: (lArest ++ [lB])) = some st ∧
      st.out = (s :: srest).dropLast.map (fun x => x ++ ",".toList)
          ++ [(s :: srest).getLastD [] ++ "\n".toList] ∧
      export_tsui code (hdr :: lA1 :: (lArest ++ [lB])) =
        some (List.flatten (st.out
          ++ [((s :: srest).dropLast.getLastD sb) ++ "\n".toList])) := by
  have hpre : pairHeader code b1 b2 = [] := by
    rcases hfail with h | h
    · simp [pairHeader, h]
    · cases hg : get_dict code b1 with
      | none => simp [pairHeader, hg]
      | some c1v => simp [pairHeader, hg, h]
  have hrun := tsui_two_group code a1 a2 b1 b2 sb lA1 s lArest srest lB
    hA1 hArest hB hne
  rw [hpre] at hrun
  refine ⟨_, hrun, ?_, ?_⟩
  · rfl
  · simp only [export_tsui]
    rw [if_neg (by simp)]
    rw [hrun]
    dsimp only
    rw [hpre]
    simp [List.append_assoc]

/-- Concrete drug-bank mapping for the C8 witness. -/
def tsuiCodeW : List (List Char × List Char) :=
  [("c".toList, "x".toList), ("d".toList, "y".toList)]

/-- Witness for C8 on a concrete two-group input. -/
theorem export_tsui_flush_uses_next_group_names_instance :
    ∃ st, tsuiRun tsuiCodeW tsuiInit
        ("a,b,s1".toList :: (["a,b,s2".toList] ++ ["c,d,t".toList])) = some st ∧
      st.out = ("c".toList ++ "|".toList ++ "d".toList ++ "|".toList
          ++ "x".toList ++ "|".toList ++ "y".toList ++ "|".toList)
        :: (("s1".toList :: ["s2".toList]).dropLast.map (fun x => x ++ ",".toList)
          ++ [("s1".toList :: ["s2".toList]).getLastD [] ++ "\n".toList]) ∧
      st.drug1 = "c".toList ∧ st.drug2 = "d".toList ∧
      export_tsui tsuiCodeW ("h".toList :: "a,b,s1".toList ::
          (["a,b,s2".toList] ++ ["c,d,t".toList])) =
        some (List.flatten (st.out
          ++ ("c".toList ++ "|".toList ++ "d".toList ++ "|".toList
            ++ "x".toList ++ "|".toList ++ "y".toList ++ "|".toList)
          :: [(("s1".toList :: ["s2".toList]).dropLast.getLastD ("t".toList))
            ++ "\n".toList])) :=
  export_tsui_flush_uses_next_group_names tsuiCodeW ("h".toList)
    ("a".toList) ("b".toList) ("c".toList) ("d".toList) ("t".toList)
    ("x".toList) ("y".toList) ("a,b,s1".toList) ("s1".toList)
    (["a,b,s2".toList]) (["s2".toList]) ("c,d,t".toList)
    rfl (List.Forall₂.cons rfl List.Forall₂.nil) rfl (by decide) rfl rfl

/-- Witness for C9 on a concrete two-group input with an empty drug bank. -/
theorem export_tsui_ses_written_unconditionally_instance :
    ∃ st, tsuiRun ([] : List (List Char × List Char)) tsuiInit
        ("a,b,s1".toList :: (["a,b,s2".toList] ++ ["c,d,t".toList])) = some st ∧
      st.out = ("s1".toList :: ["s2".toList]).dropLast.map (fun x => x ++ ",".toList)
          ++ [("s1".toList :: ["s2".toList]).getLastD [] ++ "\n".toList] ∧
      export_tsui ([] : List (List Char × List Char)) ("h".toList :: "a,b,s1".toList ::
          (["a,b,s2".toList] ++ ["c,d,t".toList])) =
        some (List.flatten (st.out
          ++ [(("s1".toList :: ["s2".toList]).dropLast.getLastD ("t".toList))
            ++ "\n".toList])) :=
  export_tsui_ses_written_unconditionally [] ("h".toList) ("a".toList)
    ("b".toList) ("c".toList) ("d".toList) ("t".toList) ("a,b,s1".toList)
    ("s1".toList) (["a,b,s2".toList]) (["s2".toList]) ("c,d,t".toList)
    rfl (List.Forall₂.cons rfl List.Forall₂.nil) rfl (by decide) (Or.inl rfl)

end SPARE
